import Mathlib

/-!
Shallow embedding of the badger_explorer_core repository's core:

* the key-space query engine `DBClient.ListKeys` together with the value
  preview builder and the `isBinary` classifier (Go package `db`), and
* the chunked-write session manager and request dispatcher of the JSON-lines
  RPC layer (Go package `api`, file rpc.go),

with theorems settling the frozen claims about them.

Modelling conventions:

* Go strings that are compared against raw store keys (keys, patterns,
  start keys) are byte strings; they are embedded as `List Nat` so that the
  byte-wise lexicographic order used by Go's string comparison and by the
  store is exact.  Identifier-like strings (request ids, request types,
  modes) are embedded as Lean `String`.
* The badger iterator is embedded by its documented semantics: `Seek(k)`
  followed by `Valid/Next` visits, in ascending key order, exactly the keys
  greater than or equal to `k`; with `Reverse = true` it visits, in
  descending key order, exactly the keys less than or equal to `k`; and
  `Seek` with an empty key rewinds to the first key in iteration order
  (hence to the last stored key when reversed).  The store itself is a
  key-sorted association list.
* The regular-expression engine (Go package regexp) is external; `ListKeys`
  is parameterised by an abstract compiler `compile` returning either an
  error or a decidable key predicate, mirroring `regexp.Compile` /
  `MatchString`.
* Mutexes, goroutines and the JSON wire encoding are not modelled; handlers
  are state-passing functions.  Base64 transport decoding of chunk payloads
  is modelled by letting the `data` field carry the decoded payload bytes.
-/

namespace BadgerExplorer

/-- Raw store keys, patterns and values: byte strings. -/
abbrev Key := List Nat

/-- Byte-wise lexicographic strict order, as used by Go's `<` / `>` on
strings and by badger's key ordering. -/
def keyLt : Key → Key → Bool
  | [], [] => false
  | [], _ :: _ => true
  | _ :: _, [] => false
  | a :: as, b :: bs => if a < b then true else if b < a then false else keyLt as bs

/-- The contents of an open store: an association list of key/value pairs,
kept strictly sorted by `keyLt` (badger's invariant). -/
abbrev Store := List (Key × List Nat)

/-- Embeds `DBClient` (db package).  Only the open/closed state and the
store contents are modelled; the path bookkeeping and the mutex are not. -/
structure DBClient where
  db : Option Store
deriving Repr

/-- Embeds `KeyItem` (db package).  `ExpiresAt` is omitted: TTL expiry is
wall-clock behaviour of the external engine and no claim mentions it. -/
structure KeyItem where
  key : Key
  valuePreview : List Nat
  size : Nat
deriving Repr, DecidableEq

/-- Embeds `ListKeysOptions` (db package).  Field name mapping from the Go
struct: `pattern` is the Go field Prefix, `mode` is Mode, `sortDesc` is
SortDesc, `limit` is Limit, `offset` is Offset, `startKey` is StartKey and
`previewChars` is PreviewChars. -/
structure ListKeysOptions where
  pattern : Key
  mode : String
  sortDesc : Bool
  limit : Int
  offset : Int
  startKey : Key
  previewChars : Int
deriving Repr

/-- The bytes of an ASCII string, for building preview markers. -/
def strBytes (s : String) : List Nat := s.data.map Char.toNat

/-- Embeds `isBinary` (db package): scan at most the first 512 bytes for a
NUL byte. -/
def isBinary (data : List Nat) : Bool :=
  (data.take 512).any (fun b => b == 0)

/-- Embeds the preview construction in the body of `ListKeys`
(part_002, lines 225-240): truncate to `previewChars` bytes (default 100
when non-positive) with a "..." marker, then override with the
"[Binary n bytes]" marker whenever `isBinary` holds. -/
def previewOf (previewChars : Int) (valCopy : List Nat) : List Nat :=
  let previewLen : Int := if previewChars ≤ 0 then 100 else previewChars
  let preview :=
    if (valCopy.length : Int) > previewLen then
      valCopy.take previewLen.toNat ++ strBytes "..."
    else valCopy
  if isBinary valCopy then
    strBytes ("[Binary " ++ toString valCopy.length ++ " bytes]")
  else preview

/-- The `KeyItem` row appended for a visited entry (part_002, lines
242-247); `Size` is the value's byte length as reported by the store. -/
def mkKeyItem (opts : ListKeysOptions) (k : Key) (v : List Nat) : KeyItem :=
  { key := k, valuePreview := previewOf opts.previewChars v, size := v.length }

/-- Contiguous-substring test on byte strings, mirroring Go's
`strings.Contains(hay, needle)`. -/
def containsSeq : Key → Key → Bool
  | [], needle => needle.isEmpty
  | a :: t, needle => needle.isPrefixOf (a :: t) || containsSeq t needle

/-- Outcome of the per-key filter logic of the `ListKeys` scan loop. -/
inductive MatchResult where
  | matched
  | noMatch
  | stop
deriving Repr, DecidableEq

/-- Embeds the `switch opts.Mode` filter logic of the scan loop (part_002,
lines 161-205).  `stop` is the ascending-prefix early return (line 184):
the key fails the pattern check, the pattern is non-empty and the key is
strictly greater than the pattern.  In descending prefix mode both branches
reduce to the plain pattern check; unknown modes fall back to the
prefix check without the early return. -/
def matchStep (opts : ListKeysOptions) (re : Option (Key → Bool)) (k : Key) :
    MatchResult :=
  if opts.mode = "prefix" then
    if opts.sortDesc then
      if opts.pattern.isPrefixOf k then .matched else .noMatch
    else
      if opts.pattern.isPrefixOf k then .matched
      else if opts.pattern ≠ [] ∧ keyLt opts.pattern k ∧ ¬ opts.pattern.isPrefixOf k then .stop
      else .noMatch
  else if opts.mode = "substring" then
    if containsSeq k opts.pattern then .matched else .noMatch
  else if opts.mode = "regex" then
    match re with
    | some r => if r k then .matched else .noMatch
    | none => .matched
  else
    if opts.pattern.isPrefixOf k then .matched else .noMatch

/-- The mutable state of the scan loop: collected rows, the `count` and
`skipped` counters, and the `hasMore` flag. -/
structure LoopState where
  items : List KeyItem
  count : Nat
  skipped : Nat
  hasMore : Bool
deriving Repr, DecidableEq

/-- Embeds the scan loop of `ListKeys` (part_002, lines 156-262), one list
element per iterator position.  A matched key is either skipped (startKey
absent and fewer than `offset` matches skipped so far) or collected; after
a row is appended the limit check runs, and on reaching the limit the loop
peeks one iterator step (`it.Next(); it.Valid()` is `rest` being non-empty)
to set `hasMore`, then breaks.  `ValueCopy` never fails in this pure
embedding, so its error-continue branch has no counterpart. -/
def listLoop (opts : ListKeysOptions) (re : Option (Key → Bool)) :
    List (Key × List Nat) → LoopState → LoopState
  | [], st => st
  | (k, v) :: rest, st =>
    match matchStep opts re k with
    | .stop => st
    | .noMatch => listLoop opts re rest st
    | .matched =>
      if opts.startKey = [] ∧ (st.skipped : Int) < opts.offset then
        listLoop opts re rest { st with skipped := st.skipped + 1 }
      else
        let st' := { st with
          items := st.items ++ [mkKeyItem opts k v],
          count := st.count + 1 }
        if (st'.count : Int) ≥ opts.limit then
          { st' with hasMore := !rest.isEmpty }
        else
          listLoop opts re rest st'

/-- Embeds the seek-position choice (part_002, lines 125-138): an explicit
`startKey` wins; otherwise prefix mode seeks to the pattern, and the other
modes seek to the start of the keyspace (ascending) or to the one-byte 0xFF
sentinel (descending). -/
def seekTarget (opts : ListKeysOptions) : Key :=
  if opts.startKey ≠ [] then opts.startKey
  else if opts.mode ≠ "prefix" then
    (if opts.sortDesc then [255] else [])
  else opts.pattern

/-- The sequence of entries an iterator over `store` visits after
`Seek(target)`: ascending, the keys not below `target` in order; reversed,
the keys not above `target` in reverse order; an empty target rewinds to
the start of the iteration order (badger's documented `Seek` semantics,
see the header comment). -/
def seekEntries (store : Store) (rev : Bool) (target : Key) :
    List (Key × List Nat) :=
  if target = [] then (if rev then store.reverse else store)
  else if rev then (store.filter (fun kv => !keyLt target kv.1)).reverse
  else store.filter (fun kv => !keyLt kv.1 target)

/-- Embeds the one-off regex compilation step (part_002, lines 146-154):
compile only in regex mode with a non-empty pattern; a compile failure
aborts the query with the wrapped invalid-regex error. -/
def regexFor (compile : Key → Except String (Key → Bool))
    (opts : ListKeysOptions) : Except String (Option (Key → Bool)) :=
  if opts.mode = "regex" ∧ opts.pattern ≠ [] then
    match compile opts.pattern with
    | .error e => .error ("invalid regex: " ++ e)
    | .ok r => .ok (some r)
  else .ok none

/-- Embeds `DBClient.ListKeys` (part_002, lines 103-271): fail when the
store is closed, pick the seek position, compile the regex once, run the
scan loop from the seek position, and return the collected rows with the
`hasMore` flag. -/
def ListKeys (compile : Key → Except String (Key → Bool)) (c : DBClient)
    (opts : ListKeysOptions) : Except String (List KeyItem × Bool) :=
  match c.db with
  | none => .error "database not open"
  | some store =>
    match regexFor compile opts with
    | .error e => .error e
    | .ok re =>
      let st := listLoop opts re (seekEntries store opts.sortDesc (seekTarget opts))
        { items := [], count := 0, skipped := 0, hasMore := false }
      .ok (st.items, st.hasMore)

/-- A trivially succeeding regex engine, for runs in modes that never
consult it. -/
def compileTrue : Key → Except String (Key → Bool) :=
  fun _ => .ok (fun _ => true)

/-- Embeds `DBClient.GetValue` (db package, backup.go): fail when closed,
fail with the engine's key-not-found error when the key is absent. -/
def GetValue (c : DBClient) (key : Key) : Except String (List Nat) :=
  match c.db with
  | none => .error "database not open"
  | some store =>
    match store.lookup key with
    | none => .error "Key not found"
    | some v => .ok v

/-- Sorted insert-or-replace into a store, the effect of a badger
`txn.SetEntry` on the key-sorted contents. -/
def storeSet : Store → Key → List Nat → Store
  | [], k, v => [(k, v)]
  | (k', v') :: rest, k, v =>
    if keyLt k k' then (k, v) :: (k', v') :: rest
    else if k = k' then (k, v) :: rest
    else (k', v') :: storeSet rest k v

/-- Embeds `DBClient.SetValue` (db package, backup.go): fail when closed,
otherwise upsert the entry.  The TTL argument only configures wall-clock
expiry in the engine and has no counterpart in this timeless embedding. -/
def SetValue (c : DBClient) (key : Key) (value : List Nat) (_ttl : Int) :
    Except String DBClient :=
  match c.db with
  | none => .error "database not open"
  | some store => .ok { db := some (storeSet store key value) }

/-- Embeds `DBClient.DeleteKey` (db package, backup.go): fail when closed;
deleting an absent key succeeds. -/
def DeleteKey (c : DBClient) (key : Key) : Except String DBClient :=
  match c.db with
  | none => .error "database not open"
  | some store => .ok { db := some (store.filter (fun kv => kv.1 ≠ key)) }

/-- Embeds `DBClient.Open` (part_002, lines 27-53).  The filesystem is
abstracted as a partial map `disk` from paths to store contents: a missing
path is the os.Stat failure, and opening an already-open client fails. -/
def Open (c : DBClient) (disk : String → Option Store) (path : String) :
    Except String DBClient :=
  match c.db with
  | some _ => .error "database is already open"
  | none =>
    match disk path with
    | none => .error ("directory does not exist: " ++ path)
    | some store => .ok { db := some store }

/-- Embeds `DBClient.Close` (part_002, lines 56-68): idempotent. -/
def Close (_c : DBClient) : DBClient := { db := none }

/-! ### The RPC layer (api package, rpc.go) -/

/-- Embeds `OpenDBParams`. -/
structure OpenDBParams where
  path : String
  readonly : Bool
deriving Repr

/-- Embeds `ListKeysParams`. -/
structure ListKeysParams where
  pattern : Key
  mode : String
  sort : String
  limit : Int
  offset : Int
deriving Repr

/-- Embeds `GetValueParams`. -/
structure GetValueParams where
  key : Key
deriving Repr

/-- Embeds `PutValueParams`: the key and ttl fields are carried but unused
by the init handler (they are re-supplied at commit time). -/
structure PutValueParams where
  key : Key
  valueLength : Int
  ttl : Int
deriving Repr

/-- Embeds `PutChunkParams`.  `data` carries the base64-decoded payload
bytes (the transport decoding is not modelled). -/
structure PutChunkParams where
  id : String
  chunkIndex : Int
  data : List Nat
deriving Repr

/-- Embeds `PutCommitParams`. -/
structure PutCommitParams where
  id : String
  key : Key
  ttl : Int
deriving Repr

/-- Embeds `DeleteKeyParams`. -/
structure DeleteKeyParams where
  key : Key
deriving Repr

/-- The session table `chunkBuffer`: request id to accumulated bytes. -/
abbrev BufMap := List (String × List Nat)

/-- Go map read: `h.chunkBuffer[id]`. -/
def bufGet (m : BufMap) (id : String) : Option (List Nat) :=
  m.lookup id

/-- Go map write: `h.chunkBuffer[id] = v` (replace or add). -/
def bufSet : BufMap → String → List Nat → BufMap
  | [], id, v => [(id, v)]
  | (i, b) :: rest, id, v =>
    if i = id then (id, v) :: rest else (i, b) :: bufSet rest id v

/-- Go map delete: `delete(h.chunkBuffer, id)` (no-op when absent). -/
def bufDel (m : BufMap) (id : String) : BufMap :=
  m.filter (fun e => e.1 ≠ id)

/-- Embeds `Handler` (rpc.go): the store client, the chunk-session table,
and the abstract filesystem consulted by open_db.  The output writer and
its mutex are not modelled; each handler returns its response directly. -/
structure HandlerM where
  dbClient : DBClient
  chunkBuffer : BufMap
  disk : String → Option Store

/-- Embeds `Handler.handleOpenDB`. -/
def handleOpenDB (h : HandlerM) (p : OpenDBParams) :
    Except String Unit × HandlerM :=
  match Open h.dbClient h.disk p.path with
  | .error e => (.error e, h)
  | .ok c => (.ok (), { h with dbClient := c })

/-- Embeds `Handler.handleListKeys` (the regex engine is passed in, as for
`ListKeys`); the result rows are dropped here since only the error/success
shape of the response is at stake in the dispatcher claims. -/
def handleListKeys (compile : Key → Except String (Key → Bool))
    (h : HandlerM) (p : ListKeysParams) : Except String Unit × HandlerM :=
  let opts : ListKeysOptions :=
    { pattern := p.pattern, mode := p.mode, sortDesc := p.sort = "desc",
      limit := p.limit, offset := p.offset, startKey := [], previewChars := 0 }
  match ListKeys compile h.dbClient opts with
  | .error e => (.error e, h)
  | .ok _ => (.ok (), h)

/-- Embeds `Handler.handleGetValue` (result payload elided). -/
def handleGetValue (h : HandlerM) (p : GetValueParams) :
    Except String Unit × HandlerM :=
  match GetValue h.dbClient p.key with
  | .error e => (.error e, h)
  | .ok _ => (.ok (), h)

/-- Embeds `Handler.handlePutValue` (rpc.go, lines 229-249): session init
unconditionally installs a fresh empty buffer under the request id (the
declared length is only a capacity hint). -/
def handlePutValue (h : HandlerM) (reqID : String) (_p : PutValueParams) :
    Except String Unit × HandlerM :=
  (.ok (), { h with chunkBuffer := bufSet h.chunkBuffer reqID [] })

/-- Embeds `Handler.handlePutChunk` (rpc.go, lines 257-279): the decoded
payload is appended to the session buffer in arrival order; `chunkIndex`
is never consulted; an unknown session id fails without side effect. -/
def handlePutChunk (h : HandlerM) (p : PutChunkParams) :
    Except String Unit × HandlerM :=
  match bufGet h.chunkBuffer p.id with
  | none => (.error ("unknown upload session: " ++ p.id), h)
  | some buf =>
    (.ok (), { h with chunkBuffer := bufSet h.chunkBuffer p.id (buf ++ p.data) })

/-- Embeds `Handler.handlePutCommit` (rpc.go, lines 287-304): look up and
delete the session (the delete happens whether or not the lookup hit),
fail with the unknown-session error when there was no session, otherwise
persist the accumulated buffer under the supplied key. -/
def handlePutCommit (h : HandlerM) (p : PutCommitParams) :
    Except String Unit × HandlerM :=
  let buf? := bufGet h.chunkBuffer p.id
  let h' := { h with chunkBuffer := bufDel h.chunkBuffer p.id }
  match buf? with
  | none => (.error ("unknown upload session: " ++ p.id), h')
  | some buf =>
    match SetValue h'.dbClient p.key buf p.ttl with
    | .error e => (.error e, h')
    | .ok c => (.ok (), { h' with dbClient := c })

/-- Embeds `Handler.handleDeleteKey`. -/
def handleDeleteKey (h : HandlerM) (p : DeleteKeyParams) :
    Except String Unit × HandlerM :=
  match DeleteKey h.dbClient p.key with
  | .error e => (.error e, h)
  | .ok c => (.ok (), { h with dbClient := c })

/-- Embeds `Handler.handleCloseDB`. -/
def handleCloseDB (h : HandlerM) : Except String Unit × HandlerM :=
  (.ok (), { h with dbClient := Close h.dbClient })

/-- The error object of a response envelope. -/
structure ErrorObj where
  code : Int
  message : String
deriving Repr, DecidableEq

/-- A response envelope; result payloads are elided, only the id, type and
error object are modelled. -/
structure Response where
  id : String
  type : String
  error : Option ErrorObj
deriving Repr, DecidableEq

/-- The decoded params of a request, one variant per request kind. -/
inductive ReqParams where
  | openDB (p : OpenDBParams)
  | listKeys (p : ListKeysParams)
  | getValue (p : GetValueParams)
  | putValue (p : PutValueParams)
  | putChunk (p : PutChunkParams)
  | putCommit (p : PutCommitParams)
  | deleteKey (p : DeleteKeyParams)
  | closeDB
deriving Repr

/-- Embeds `Request` with its params already decoded. -/
structure Request where
  id : String
  type : String
  params : ReqParams
deriving Repr

/-- `sendError`: an error response envelope. -/
def errResp (id : String) (code : Int) (msg : String) : Response :=
  { id := id, type := "error", error := some { code := code, message := msg } }

/-- Wraps a handler outcome the way `handleLine` does: an error becomes a
code-1000 error response carrying the message, success becomes the
`<type>_resp` envelope. -/
def finishResp (id ty : String) : Except String Unit → Response
  | .error e => errResp id 1000 e
  | .ok () => { id := id, type := ty ++ "_resp", error := none }

/-- A handler body's params decode failing (`json.Unmarshal` inside the
handler): surfaced as an ordinary handler error. -/
def paramsMismatch : Except String Unit := .error "params decode failed"

/-- The `switch req.Type` of `Handler.handleLine` (rpc.go, lines 88-108):
a known request kind yields its handler's outcome, an unknown kind yields
`none` (Go's `default` case, which bypasses the common response tail). -/
def dispatchReq (compile : Key → Except String (Key → Bool)) (h : HandlerM)
    (req : Request) : Option (Except String Unit × HandlerM) :=
  if req.type = "open_db" then some (
    match req.params with
    | .openDB p => handleOpenDB h p
    | _ => (paramsMismatch, h))
  else if req.type = "list_keys" then some (
    match req.params with
    | .listKeys p => handleListKeys compile h p
    | _ => (paramsMismatch, h))
  else if req.type = "get_value" then some (
    match req.params with
    | .getValue p => handleGetValue h p
    | _ => (paramsMismatch, h))
  else if req.type = "put_value" then some (
    match req.params with
    | .putValue p => handlePutValue h req.id p
    | _ => (paramsMismatch, h))
  else if req.type = "put_chunk" then some (
    match req.params with
    | .putChunk p => handlePutChunk h p
    | _ => (paramsMismatch, h))
  else if req.type = "put_commit" then some (
    match req.params with
    | .putCommit p => handlePutCommit h p
    | _ => (paramsMismatch, h))
  else if req.type = "delete_key" then some (
    match req.params with
    | .deleteKey p => handleDeleteKey h p
    | _ => (paramsMismatch, h))
  else if req.type = "close_db" then some (handleCloseDB h)
  else none

/-- Embeds `Handler.handleLine` (rpc.go, lines 78-115).  `none` stands for
a line `json.Unmarshal` could not decode into an envelope: code 1003 with
the zero-valued request id.  A known request kind dispatches to its
handler, whose error (including a params-shape mismatch) is wrapped with
code 1000 by the common tail; an unknown kind is code 1000 with the fixed
message. -/
def handleLine (compile : Key → Except String (Key → Bool)) (h : HandlerM) :
    Option Request → Response × HandlerM
  | none => (errResp "" 1003 "Invalid request format", h)
  | some req =>
    match dispatchReq compile h req with
    | none => (errResp req.id 1000 "Unknown request type", h)
    | some r => (finishResp req.id req.type r.1, r.2)

/-- The eight request kinds known to the dispatcher's switch. -/
def knownTypes : List String :=
  ["open_db", "list_keys", "get_value", "put_value",
   "put_chunk", "put_commit", "delete_key", "close_db"]

/-! ### Derived quantities used to state the scan-loop characterisation -/

/-- The number of rows after which the scan loop's post-append limit check
fires: `limit` itself when positive, and 1 otherwise (the check runs only
after a row has been appended). -/
def effLimit (opts : ListKeysOptions) : Nat := max 1 opts.limit.toNat

/-- The number of matched rows the loop skips before collecting: `offset`
when no start key is given, none otherwise. -/
def offTarget (opts : ListKeysOptions) : Nat :=
  if opts.startKey = [] then opts.offset.toNat else 0

/-- The per-entry match predicate of the scan loop as a boolean. -/
def matchedP (opts : ListKeysOptions) (re : Option (Key → Bool))
    (kv : Key × List Nat) : Bool :=
  matchStep opts re kv.1 == .matched

/-- A regex engine whose compilation always fails, for exercising the
invalid-pattern path. -/
def compileBad : Key → Except String (Key → Bool) :=
  fun _ => .error "x"

/-- A concrete handler over an open empty store, for closed runs. -/
def emptyHandler : HandlerM :=
  { dbClient := { db := some [] }, chunkBuffer := [], disk := fun _ => none }

/-! ## Helper lemmas -/

/-- `previewOf` with its local lets inlined. -/
theorem previewOf_eq (p : Int) (v : List Nat) :
    previewOf p v =
      if isBinary v then strBytes ("[Binary " ++ toString v.length ++ " bytes]")
      else if (v.length : Int) > (if p ≤ 0 then 100 else p) then
        v.take (if p ≤ 0 then 100 else p).toNat ++ strBytes "..."
      else v := rfl

/-- The binary classifier fires exactly on a NUL byte among the first 512
bytes. -/
theorem isBinary_iff (v : List Nat) : isBinary v = true ↔ 0 ∈ v.take 512 := by
  unfold isBinary
  rw [List.any_eq_true]
  constructor
  · rintro ⟨x, hx, hb⟩
    have hx0 : x = 0 := by simpa using hb
    rwa [hx0] at hx
  · intro h
    exact ⟨0, h, by simp⟩

/-- Reading back the id just written into the session table. -/
theorem bufGet_bufSet_self (m : BufMap) (id : String) (v : List Nat) :
    bufGet (bufSet m id v) id = some v := by
  induction m with
  | nil => simp [bufGet, bufSet, List.lookup]
  | cons e rest ih =>
    obtain ⟨i, b⟩ := e
    by_cases hi : i = id
    · simp [bufGet, bufSet, hi, List.lookup]
    · have hne : (id == i) = false := beq_eq_false_iff_ne.mpr (fun h => hi h.symm)
      simp only [bufGet, bufSet, if_neg hi, List.lookup, hne]
      exact ih

/-- Reading any other id is unaffected by a session-table write. -/
theorem bufGet_bufSet_ne (m : BufMap) (id id' : String) (v : List Nat)
    (h : id' ≠ id) : bufGet (bufSet m id v) id' = bufGet m id' := by
  have hne : (id' == id) = false := beq_eq_false_iff_ne.mpr h
  induction m with
  | nil => simp [bufGet, bufSet, List.lookup, hne]
  | cons e rest ih =>
    obtain ⟨i, b⟩ := e
    by_cases hi : i = id
    · subst hi
      simp [bufGet, bufSet, List.lookup, hne]
    · simp only [bufGet, bufSet, if_neg hi, List.lookup] at *
      split <;> simp_all

/-- Deleting a session id removes it from the table. -/
theorem bufGet_bufDel_self (m : BufMap) (id : String) :
    bufGet (bufDel m id) id = none := by
  induction m with
  | nil => rfl
  | cons e rest ih =>
    obtain ⟨i, b⟩ := e
    by_cases hi : i = id
    · simpa [bufDel, hi] using ih
    · have hne : (id == i) = false := beq_eq_false_iff_ne.mpr (fun h => hi h.symm)
      simpa [bufDel, hi, bufGet, List.lookup, hne] using ih

/-- Looking up the key just upserted into the store. -/
theorem lookup_storeSet_self (s : Store) (k : Key) (v : List Nat) :
    (storeSet s k v).lookup k = some v := by
  induction s with
  | nil => simp [storeSet, List.lookup]
  | cons e rest ih =>
    obtain ⟨k', v'⟩ := e
    by_cases h1 : keyLt k k'
    · simp [storeSet, h1, List.lookup]
    · by_cases h2 : k = k'
      · simp only [storeSet, if_neg h1, if_pos h2, List.lookup, beq_self_eq_true]
      · have hne : (k == k') = false := beq_eq_false_iff_ne.mpr h2
        simp only [storeSet, if_neg h1, if_neg h2, List.lookup, hne]
        exact ih

/-- Strict byte-lexicographic order is asymmetric. -/
theorem keyLt_asymm : ∀ a b : Key, keyLt a b = true → keyLt b a = true → False
  | [], [], h1, _ => by simp [keyLt] at h1
  | [], _ :: _, _, h2 => by simp [keyLt] at h2
  | _ :: _, [], h1, _ => by simp [keyLt] at h1
  | x :: xs, y :: ys, h1, h2 => by
    by_cases hxy : x < y
    · have hyx : ¬ y < x := by omega
      simp [keyLt, hxy, hyx] at h2
    · by_cases hyx : y < x
      · simp [keyLt, hxy, hyx] at h1
      · simp only [keyLt, if_neg hxy, if_neg hyx] at h1 h2
        exact keyLt_asymm xs ys h1 h2

/-- In byte order, a key carrying pattern P as a prefix lies strictly below
every key that is above P but does not carry P (P-prefixed keys form an
interval starting at P). -/
theorem prefix_keyLt : ∀ P k k' : Key, keyLt P k = true →
    P.isPrefixOf k = false → P.isPrefixOf k' = true → keyLt k' k = true
  | [], k, k', _, hnp, _ => by simp [List.isPrefixOf] at hnp
  | _ :: _, [], k', hlt, _, _ => by simp [keyLt] at hlt
  | p :: ps, a :: as, [], _, _, hp => by simp [List.isPrefixOf] at hp
  | p :: ps, a :: as, b :: bs, hlt, hnp, hp => by
    have hpb : p = b ∧ ps.isPrefixOf bs = true := by
      simpa [List.isPrefixOf] using hp
    by_cases hpa : p < a
    · have h1 : b < a := hpb.1 ▸ hpa
      simp [keyLt, h1]
    · by_cases hap : a < p
      · simp [keyLt, hpa, hap] at hlt
      · have hpa' : p = a := by omega
        have hlt' : keyLt ps as = true := by
          simpa [keyLt, hpa, hap] using hlt
        have hnp' : ps.isPrefixOf as = false := by
          have : (p == a) = true := by simp [hpa']
          simpa [List.isPrefixOf, this] using hnp
        have hrec := prefix_keyLt ps as bs hlt' hnp' hpb.2
        have hba : ¬ b < a := by omega
        have hab : ¬ a < b := by omega
        simpa [keyLt, hba, hab] using hrec

/-- Inversion: the `stop` outcome arises only from the ascending-prefix
early return, with its guard conditions. -/
theorem matchStep_stop_inv (opts : ListKeysOptions) (re : Option (Key → Bool))
    (k : Key) (h : matchStep opts re k = .stop) :
    opts.mode = "prefix" ∧ opts.sortDesc = false ∧ opts.pattern ≠ [] ∧
      keyLt opts.pattern k = true ∧ opts.pattern.isPrefixOf k = false := by
  unfold matchStep at h
  by_cases h1 : opts.mode = "prefix"
  · rw [if_pos h1] at h
    cases hd : opts.sortDesc with
    | true =>
      rw [hd] at h
      simp only [if_true] at h
      split at h <;> cases h
    | false =>
      rw [hd] at h
      simp only [Bool.false_eq_true, if_false] at h
      split at h
      · cases h
      · split at h
        · rename_i hp hc
          refine ⟨h1, rfl, hc.1, hc.2.1, ?_⟩
          exact Bool.eq_false_iff.mpr hp
        · cases h
  · rw [if_neg h1] at h
    by_cases h2 : opts.mode = "substring"
    · rw [if_pos h2] at h
      split at h <;> cases h
    · rw [if_neg h2] at h
      by_cases h3 : opts.mode = "regex"
      · rw [if_pos h3] at h
        rcases re with _ | r
        · cases h
        · simp only at h
          split at h <;> cases h
      · rw [if_neg h3] at h
        split at h <;> cases h

/-- Inversion: in prefix mode a `matched` outcome means the key carries the
pattern. -/
theorem matchStep_matched_prefix (opts : ListKeysOptions)
    (re : Option (Key → Bool)) (k : Key) (h1 : opts.mode = "prefix")
    (h : matchStep opts re k = .matched) :
    opts.pattern.isPrefixOf k = true := by
  unfold matchStep at h
  rw [if_pos h1] at h
  cases hd : opts.sortDesc with
  | true =>
    rw [hd] at h
    simp only [if_true] at h
    split at h
    · assumption
    · cases h
  | false =>
    rw [hd] at h
    simp only [Bool.false_eq_true, if_false] at h
    split at h
    · assumption
    · split at h <;> cases h

/-- Loop step: the early return ends the scan with the state unchanged. -/
theorem listLoop_stop_step (opts : ListKeysOptions) (re : Option (Key → Bool))
    (k : Key) (v : List Nat) (rest : List (Key × List Nat)) (st : LoopState)
    (hms : matchStep opts re k = .stop) :
    listLoop opts re ((k, v) :: rest) st = st := by
  simp only [listLoop, hms]

/-- Loop step: an unmatched key is passed over without touching the
state. -/
theorem listLoop_noMatch_step (opts : ListKeysOptions)
    (re : Option (Key → Bool)) (k : Key) (v : List Nat)
    (rest : List (Key × List Nat)) (st : LoopState)
    (hms : matchStep opts re k = .noMatch) :
    listLoop opts re ((k, v) :: rest) st = listLoop opts re rest st := by
  simp only [listLoop, hms]

/-- Loop step: a matched key within the offset window only bumps the
skip counter. -/
theorem listLoop_skip_step (opts : ListKeysOptions) (re : Option (Key → Bool))
    (k : Key) (v : List Nat) (rest : List (Key × List Nat)) (st : LoopState)
    (hms : matchStep opts re k = .matched)
    (hskip : opts.startKey = [] ∧ (st.skipped : Int) < opts.offset) :
    listLoop opts re ((k, v) :: rest) st =
      listLoop opts re rest { st with skipped := st.skipped + 1 } := by
  simp only [listLoop, hms, if_pos hskip]

/-- Loop step: a collected row is appended and then the limit check runs;
reaching the limit stops the scan after the one-step lookahead. -/
theorem listLoop_collect_step (opts : ListKeysOptions)
    (re : Option (Key → Bool)) (k : Key) (v : List Nat)
    (rest : List (Key × List Nat)) (st : LoopState)
    (hms : matchStep opts re k = .matched)
    (hskip : ¬(opts.startKey = [] ∧ (st.skipped : Int) < opts.offset)) :
    listLoop opts re ((k, v) :: rest) st =
      if ((st.count + 1 : Nat) : Int) ≥ opts.limit then
        { items := st.items ++ [mkKeyItem opts k v]
          count := st.count + 1
          skipped := st.skipped
          hasMore := !rest.isEmpty }
      else
        listLoop opts re rest
          { st with
            items := st.items ++ [mkKeyItem opts k v]
            count := st.count + 1 } := by
  simp only [listLoop, hms, if_neg hskip]

/-- Characterisation of the scan loop: as long as the limit has not been
hit, the collected rows are exactly the matched entries, after dropping
the outstanding offset-skips, capped by the outstanding limit (with the
sortedness of the scanned range making the ascending-prefix early return
harmless). -/
theorem listLoop_characterization (opts : ListKeysOptions)
    (re : Option (Key → Bool)) :
    ∀ (l : List (Key × List Nat)) (st : LoopState),
      (opts.mode = "prefix" → opts.sortDesc = false →
        (l.map Prod.fst).Pairwise (fun a b => keyLt a b = true)) →
      st.count < effLimit opts →
      (listLoop opts re l st).items =
        st.items ++
          ((((l.filter (matchedP opts re)).drop
              (offTarget opts - st.skipped)).take
            (effLimit opts - st.count)).map fun kv => mkKeyItem opts kv.1 kv.2) := by
  intro l
  induction l with
  | nil => intro st _ _; simp [listLoop]
  | cons kv rest ih =>
    intro st hsorted hcount
    obtain ⟨k, v⟩ := kv
    have htail : opts.mode = "prefix" → opts.sortDesc = false →
        (rest.map Prod.fst).Pairwise (fun a b => keyLt a b = true) := by
      intro h1 h2
      exact (List.pairwise_cons.mp (hsorted h1 h2)).2
    cases hms : matchStep opts re k with
    | stop =>
      obtain ⟨hmode, hdesc, hne, hlt, hnp⟩ := matchStep_stop_inv opts re k hms
      have hpair := hsorted hmode hdesc
      have hfilter : ((k, v) :: rest).filter (matchedP opts re) = [] := by
        rw [List.filter_eq_nil_iff]
        intro a ha hmem
        rcases List.mem_cons.mp ha with rfl | hain
        · simp [matchedP, hms] at hmem
        · have hmk : matchStep opts re a.1 = .matched := by
            have := hmem
            unfold matchedP at this
            simpa using this
          have hpk : opts.pattern.isPrefixOf a.1 = true :=
            matchStep_matched_prefix opts re a.1 hmode hmk
          have hklt : keyLt k a.1 = true := by
            have hhead := (List.pairwise_cons.mp hpair).1
            exact hhead a.1 (List.mem_map_of_mem Prod.fst hain)
          exact keyLt_asymm k a.1 hklt (prefix_keyLt opts.pattern k a.1 hlt hnp hpk)
      rw [listLoop_stop_step opts re k v rest st hms, hfilter]
      simp
    | noMatch =>
      have hm1 : matchedP opts re (k, v) = false := by simp [matchedP, hms]
      rw [listLoop_noMatch_step opts re k v rest st hms, List.filter_cons, hm1]
      simp only [Bool.false_eq_true, if_false]
      exact ih st htail hcount
    | matched =>
      have hm1 : matchedP opts re (k, v) = true := by simp [matchedP, hms]
      by_cases hskip : opts.startKey = [] ∧ (st.skipped : Int) < opts.offset
      · have hoff : offTarget opts - st.skipped =
            (offTarget opts - (st.skipped + 1)) + 1 := by
          unfold offTarget
          rw [if_pos hskip.1]
          have := hskip.2
          omega
        rw [listLoop_skip_step opts re k v rest st hms hskip,
          ih { st with skipped := st.skipped + 1 } htail hcount,
          List.filter_cons, hm1]
        simp only [if_true]
        rw [hoff, List.drop_succ_cons]
      · have hoff : offTarget opts - st.skipped = 0 := by
          unfold offTarget
          by_cases hsk : opts.startKey = []
          · rw [if_pos hsk]
            have hno : ¬ (st.skipped : Int) < opts.offset :=
              fun hc => hskip ⟨hsk, hc⟩
            omega
          · rw [if_neg hsk]
            omega
        have htake : effLimit opts - st.count =
            (effLimit opts - (st.count + 1)) + 1 := by omega
        rw [listLoop_collect_step opts re k v rest st hms hskip,
          List.filter_cons, hm1]
        simp only [if_true]
        rw [hoff, List.drop_zero, htake, List.take_succ_cons, List.map_cons]
        by_cases hl : ((st.count + 1 : Nat) : Int) ≥ opts.limit
        · have hge : st.count + 1 ≥ effLimit opts := by
            unfold effLimit at hcount ⊢
            omega
          have hEq : effLimit opts - (st.count + 1) = 0 := by omega
          rw [if_pos hl, hEq]
          simp
        · have hlt2 : st.count + 1 < effLimit opts := by
            unfold effLimit at hcount ⊢
            omega
          rw [if_neg hl,
            ih { st with
              items := st.items ++ [mkKeyItem opts k v]
              count := st.count + 1 } htail hlt2]
          have hoff2 : offTarget opts - st.skipped = 0 := hoff
          rw [hoff2, List.drop_zero]
          simp

/-! ## Claim theorems -/

/-- C1, counterexample: on the store with keys "a", "b" and the ascending
prefix query with pattern "a" and limit 1, the page is the single row "a"
and hasMore is reported true, although the entry visited by the lookahead
step ("b") does not match the active predicate (the filter logic yields
the ascending-prefix early stop for it, not a match) — the claim predicts
hasMore = false here. -/
theorem C1_counterexample :
    ListKeys compileTrue { db := some [([97], [120]), ([98], [121])] }
      { pattern := [97]
        mode := "prefix"
        sortDesc := false
        limit := 1
        offset := 0
        startKey := []
        previewChars := 10 } =
      .ok ([{ key := [97], valuePreview := [120], size := 1 }], true) ∧
    matchStep
      { pattern := [97]
        mode := "prefix"
        sortDesc := false
        limit := 1
        offset := 0
        startKey := []
        previewChars := 10 } none [98] ≠ .matched :=
  ⟨by rfl, by decide⟩

/-- C1 (amended): once the row that fills the limit has been collected, the
scan advances the iterator one further step and sets hasMore = true exactly
when that step still finds an entry in the scan range — irrespective of
whether the peeked entry matches the predicate or the offset state; the
peeked entry is never appended to the page, and the page gains exactly the
one row that filled the limit. -/
theorem C1_lookahead_amended (opts : ListKeysOptions)
    (re : Option (Key → Bool)) (k : Key) (v : List Nat)
    (rest : List (Key × List Nat)) (st : LoopState)
    (hms : matchStep opts re k = .matched)
    (hskip : ¬(opts.startKey = [] ∧ (st.skipped : Int) < opts.offset))
    (hlim : ((st.count + 1 : Nat) : Int) ≥ opts.limit) :
    listLoop opts re ((k, v) :: rest) st =
      { items := st.items ++ [mkKeyItem opts k v]
        count := st.count + 1
        skipped := st.skipped
        hasMore := !rest.isEmpty } := by
  rw [listLoop_collect_step opts re k v rest st hms hskip, if_pos hlim]

/-- Witness for C1 (amended) at the counterexample input. -/
theorem C1_lookahead_amended_witness :
    listLoop
      { pattern := [97]
        mode := "prefix"
        sortDesc := false
        limit := 1
        offset := 0
        startKey := []
        previewChars := 10 } none [([97], [120]), ([98], [121])]
      { items := [], count := 0, skipped := 0, hasMore := false } =
      { items := [{ key := [97], valuePreview := [120], size := 1 }]
        count := 1
        skipped := 0
        hasMore := true } :=
  C1_lookahead_amended
    { pattern := [97]
      mode := "prefix"
      sortDesc := false
      limit := 1
      offset := 0
      startKey := []
      previewChars := 10 } none [97] [120] [([98], [121])]
    { items := [], count := 0, skipped := 0, hasMore := false }
    (by decide) (by decide) (by decide)

/-- C2, code evaluation at the failing input: over the store holding the
single key "ab", the ascending prefix query for pattern "a" returns the
row "ab", while the descending variant of the same query returns no rows
at all (its reverse seek to "a" lands below every "a"-prefixed key), so
the descending row sequence is not the reverse of the ascending one. -/
theorem C2_descending_prefix_divergence :
    ListKeys compileTrue { db := some [([97, 98], [120])] }
      { pattern := [97]
        mode := "prefix"
        sortDesc := false
        limit := 10
        offset := 0
        startKey := []
        previewChars := 10 } =
      .ok ([{ key := [97, 98], valuePreview := [120], size := 1 }], false) ∧
    ListKeys compileTrue { db := some [([97, 98], [120])] }
      { pattern := [97]
        mode := "prefix"
        sortDesc := true
        limit := 10
        offset := 0
        startKey := []
        previewChars := 10 } =
      .ok ([], false) ∧
    ([] : List KeyItem) ≠
      [{ key := [97, 98], valuePreview := [120], size := 1 }].reverse :=
  ⟨by rfl, by rfl, by decide⟩

/-- C3, code evaluation at the failing input: both stored keys "ab" and
"ac" carry the pattern "a" and lie inside the window (offset 0, limit 10),
yet the descending prefix query returns the empty page, omitting them. -/
theorem C3_descending_prefix_omission :
    ([97] : Key).isPrefixOf [97, 98] = true ∧
    ([97] : Key).isPrefixOf [97, 99] = true ∧
    ListKeys compileTrue { db := some [([97, 98], [120]), ([97, 99], [121])] }
      { pattern := [97]
        mode := "prefix"
        sortDesc := true
        limit := 10
        offset := 0
        startKey := []
        previewChars := 10 } = .ok ([], false) :=
  ⟨by rfl, by rfl, by rfl⟩

/-- C6: a value with a NUL byte among its first 512 bytes always previews
as the binary marker carrying the full value length; otherwise a value no
longer than the effective preview length (previewChars, or the default 100
when previewChars is non-positive) is rendered verbatim, and a longer one
is its first previewChars bytes followed by the "..." truncation marker. -/
theorem C6_preview (p : Int) (v : List Nat) :
    (0 ∈ v.take 512 →
      previewOf p v = strBytes ("[Binary " ++ toString v.length ++ " bytes]")) ∧
    (0 ∉ v.take 512 →
      ((v.length : Int) ≤ (if p ≤ 0 then 100 else p) → previewOf p v = v) ∧
      ((if p ≤ 0 then 100 else p) < (v.length : Int) →
        previewOf p v = v.take (if p ≤ 0 then 100 else p).toNat ++ strBytes "...")) := by
  constructor
  · intro h
    have hb : isBinary v = true := (isBinary_iff v).mpr h
    rw [previewOf_eq, if_pos hb]
  · intro h
    have hb : ¬ isBinary v = true := fun hbv => h ((isBinary_iff v).mp hbv)
    constructor
    · intro hle
      rw [previewOf_eq, if_neg hb, if_neg (not_lt.mpr hle)]
    · intro hgt
      rw [previewOf_eq, if_neg hb, if_pos hgt]

/-- Witness for C6 at concrete inputs: a short NUL-free value with the
default preview length, and a value with a leading NUL byte. -/
theorem C6_preview_witness :
    previewOf 0 [65] = [65] ∧
    previewOf 5 [0, 66] = strBytes ("[Binary " ++ toString 2 ++ " bytes]") :=
  ⟨((C6_preview 0 [65]).2 (by decide)).1 (by decide),
   (C6_preview 5 [0, 66]).1 (by decide)⟩

/-- C9: a put_value init on a request id that already has a live
uncommitted session succeeds and unconditionally replaces the session's
buffer with a fresh empty one, discarding the previously appended bytes. -/
theorem C9_session_reinit (h : HandlerM) (id : String) (p : PutValueParams)
    (buf : List Nat) (_hlive : bufGet h.chunkBuffer id = some buf) :
    (handlePutValue h id p).1 = .ok () ∧
    bufGet (handlePutValue h id p).2.chunkBuffer id = some [] :=
  ⟨rfl, bufGet_bufSet_self h.chunkBuffer id []⟩

/-- Witness for C9: a concrete session holding two bytes is reset. -/
theorem C9_session_reinit_witness :
    (handlePutValue
      { dbClient := { db := some [] }
        chunkBuffer := [("u", [1, 2])]
        disk := fun _ => none } "u"
      { key := [107], valueLength := 3, ttl := 0 }).1 = .ok () ∧
    bufGet (handlePutValue
      { dbClient := { db := some [] }
        chunkBuffer := [("u", [1, 2])]
        disk := fun _ => none } "u"
      { key := [107], valueLength := 3, ttl := 0 }).2.chunkBuffer "u" = some [] :=
  C9_session_reinit _ "u" _ [1, 2] rfl

/-- Feeding a sequence of chunks into a live session appends their
payloads in arrival order and leaves the store client untouched. -/
theorem feedChunks_inv (id : String) :
    ∀ (cs : List (Int × List Nat)) (g : HandlerM) (acc : List Nat),
      bufGet g.chunkBuffer id = some acc →
      (cs.foldl (fun g2 c =>
          (handlePutChunk g2 { id := id, chunkIndex := c.1, data := c.2 }).2) g).dbClient
          = g.dbClient ∧
      bufGet (cs.foldl (fun g2 c =>
          (handlePutChunk g2 { id := id, chunkIndex := c.1, data := c.2 }).2) g).chunkBuffer id
          = some (acc ++ (cs.map Prod.snd).flatten) := by
  intro cs
  induction cs with
  | nil =>
    intro g acc hacc
    simpa using hacc
  | cons c cs ih =>
    intro g acc hacc
    have hstep : (handlePutChunk g { id := id, chunkIndex := c.1, data := c.2 }).2 =
        { g with chunkBuffer := bufSet g.chunkBuffer id (acc ++ c.2) } := by
      simp only [handlePutChunk, hacc]
    rw [List.foldl_cons, hstep]
    have hget : bufGet (bufSet g.chunkBuffer id (acc ++ c.2)) id = some (acc ++ c.2) :=
      bufGet_bufSet_self _ _ _
    obtain ⟨hdb, hbuf⟩ :=
      ih { g with chunkBuffer := bufSet g.chunkBuffer id (acc ++ c.2) } (acc ++ c.2) hget
    refine ⟨hdb, ?_⟩
    rw [hbuf]
    simp [List.append_assoc]

/-- C4: an upload session initialised by put_value, fed any sequence of
put_chunk calls (whatever their chunk_index values) and then committed,
persists under the committed key exactly the concatenation of the chunk
payloads in call-arrival order; a second put_commit on the same id fails
with the unknown-session error, as does a put_commit on any id with no
live session. -/
theorem C4_chunked_write (h : HandlerM) (s : Store) (id : String) (key : Key)
    (pv : PutValueParams) (chunks : List (Int × List Nat)) (ttl : Int)
    (hdb : h.dbClient.db = some s) :
    let h2 := chunks.foldl (fun g c =>
      (handlePutChunk g { id := id, chunkIndex := c.1, data := c.2 }).2)
      (handlePutValue h id pv).2
    let r := handlePutCommit h2 { id := id, key := key, ttl := ttl }
    r.1 = .ok () ∧
    GetValue r.2.dbClient key = .ok (chunks.map Prod.snd).flatten ∧
    (handlePutCommit r.2 { id := id, key := key, ttl := ttl }).1 =
      .error ("unknown upload session: " ++ id) ∧
    (∀ g : HandlerM, bufGet g.chunkBuffer id = none →
      (handlePutCommit g { id := id, key := key, ttl := ttl }).1 =
        .error ("unknown upload session: " ++ id)) := by
  intro h2 r
  have hb1 : bufGet (handlePutValue h id pv).2.chunkBuffer id = some [] :=
    bufGet_bufSet_self _ _ _
  obtain ⟨hdb2, hbuf2⟩ := feedChunks_inv id chunks (handlePutValue h id pv).2 [] hb1
  have hbuf2' : bufGet h2.chunkBuffer id = some (chunks.map Prod.snd).flatten := by
    simpa using hbuf2
  have hdbo : h2.dbClient.db = some s := by
    rw [hdb2]
    exact hdb
  have hset : SetValue h2.dbClient key (chunks.map Prod.snd).flatten ttl =
      .ok { db := some (storeSet s key (chunks.map Prod.snd).flatten) } := by
    unfold SetValue
    rw [hdbo]
  have hr : r = (.ok (),
      { dbClient := { db := some (storeSet s key (chunks.map Prod.snd).flatten) }
        chunkBuffer := bufDel h2.chunkBuffer id
        disk := h2.disk }) := by
    show handlePutCommit h2 { id := id, key := key, ttl := ttl } = _
    simp only [handlePutCommit, hbuf2', hset]
  refine ⟨?_, ?_, ?_, ?_⟩
  · rw [hr]
  · rw [hr]
    show GetValue { db := some (storeSet s key (chunks.map Prod.snd).flatten) } key = _
    simp only [GetValue, lookup_storeSet_self]
  · rw [hr]
    show (handlePutCommit
      { dbClient := { db := some (storeSet s key (chunks.map Prod.snd).flatten) }
        chunkBuffer := bufDel h2.chunkBuffer id
        disk := h2.disk } { id := id, key := key, ttl := ttl }).1 = _
    simp only [handlePutCommit, bufGet_bufDel_self]
  · intro g hg
    simp only [handlePutCommit, hg]

/-- Witness for C4: two chunks with indices 1 and 0 arrive in that order
over an open empty store; the committed value is their payloads in arrival
order, ignoring the indices. -/
theorem C4_chunked_write_witness :
    GetValue (handlePutCommit
      ([((1 : Int), [104, 105]), ((0 : Int), [33])].foldl (fun g c =>
        (handlePutChunk g { id := "u1", chunkIndex := c.1, data := c.2 }).2)
        (handlePutValue emptyHandler "u1"
          { key := [107], valueLength := 3, ttl := 0 }).2)
      { id := "u1", key := [107], ttl := 0 }).2.dbClient [107] =
      .ok [104, 105, 33] :=
  (C4_chunked_write emptyHandler [] "u1" [107]
    { key := [107], valueLength := 3, ttl := 0 }
    [((1 : Int), [104, 105]), ((0 : Int), [33])] 0 rfl).2.1

/-- Every response the dispatcher's common tail builds from a failed
handler carries code 1000. -/
theorem finishResp_error_code (id ty : String) (r : Except String Unit)
    (e : ErrorObj) (he : (finishResp id ty r).error = some e) : e.code = 1000 := by
  cases r with
  | error msg =>
    simp only [finishResp, errResp] at he
    rw [Option.some_inj] at he
    rw [← he]
  | ok u =>
    cases u
    simp [finishResp] at he

/-- C5, counterexample: a malformed envelope yields code 1003, while an
unknown request kind and a failed operation (a put_chunk on an unknown
session) both yield code 1000 — the codes of the latter two classes
coincide, so the three classes are not pairwise distinguished. -/
theorem C5_counterexample :
    (handleLine compileTrue emptyHandler none).1 =
      errResp "" 1003 "Invalid request format" ∧
    (handleLine compileTrue emptyHandler
      (some { id := "1", type := "bogus", params := .closeDB })).1 =
      errResp "1" 1000 "Unknown request type" ∧
    (handleLine compileTrue emptyHandler
      (some { id := "2", type := "put_chunk"
              params := .putChunk { id := "no", chunkIndex := 0, data := [] } })).1 =
      errResp "2" 1000 "unknown upload session: no" ∧
    ((handleLine compileTrue emptyHandler
      (some { id := "1", type := "bogus", params := .closeDB })).1.error.map
        ErrorObj.code =
     (handleLine compileTrue emptyHandler
      (some { id := "2", type := "put_chunk"
              params := .putChunk { id := "no", chunkIndex := 0, data := [] } })).1.error.map
        ErrorObj.code) :=
  ⟨by rfl, by rfl, by rfl, by rfl⟩

/-- C5 (amended): the dispatcher distinguishes a malformed envelope
(code 1003) from the other two failure classes, but an unknown request
kind and a failed operation share code 1000 — every error response to a
decoded request carries code 1000, whatever the failure. -/
theorem C5_error_codes_amended (compile : Key → Except String (Key → Bool))
    (h : HandlerM) :
    (handleLine compile h none).1 = errResp "" 1003 "Invalid request format" ∧
    (∀ req : Request, ¬ req.type ∈ knownTypes →
      (handleLine compile h (some req)).1 =
        errResp req.id 1000 "Unknown request type") ∧
    (∀ (req : Request) (e : ErrorObj),
      (handleLine compile h (some req)).1.error = some e → e.code = 1000) ∧
    (1003 : Int) ≠ 1000 := by
  refine ⟨rfl, ?_, ?_, by decide⟩
  · intro req hk
    simp only [knownTypes, List.mem_cons, List.not_mem_nil, or_false, not_or] at hk
    obtain ⟨h1, h2, h3, h4, h5, h6, h7, h8⟩ := hk
    have hd : dispatchReq compile h req = none := by
      unfold dispatchReq
      rw [if_neg h1, if_neg h2, if_neg h3, if_neg h4, if_neg h5, if_neg h6,
        if_neg h7, if_neg h8]
    show (handleLine compile h (some req)).1 = _
    simp only [handleLine, hd]
  · intro req e he
    simp only [handleLine] at he
    cases hd : dispatchReq compile h req with
    | none =>
      rw [hd] at he
      simp only [errResp] at he
      rw [Option.some_inj] at he
      rw [← he]
    | some r =>
      rw [hd] at he
      exact finishResp_error_code req.id req.type r.1 e he

/-- Witness for C5 (amended): the unknown-kind clause at a concrete
request. -/
theorem C5_error_codes_amended_witness :
    (handleLine compileTrue emptyHandler
      (some { id := "9", type := "noop", params := .closeDB })).1 =
      errResp "9" 1000 "Unknown request type" :=
  (C5_error_codes_amended compileTrue emptyHandler).2.1
    { id := "9", type := "noop", params := .closeDB } (by decide)

/-- C7: in regex mode over an open store, a pattern whose compilation
fails aborts the whole query with the invalid-regex error before any row
is visited (no partial page can be produced), and the empty pattern skips
compilation and matches every key. -/
theorem C7_regex (compile : Key → Except String (Key → Bool)) (c : DBClient)
    (opts : ListKeysOptions) :
    (∀ (s : Store) (e : String), c.db = some s → opts.mode = "regex" →
      opts.pattern ≠ [] → compile opts.pattern = .error e →
      ListKeys compile c opts = .error ("invalid regex: " ++ e)) ∧
    (opts.mode = "regex" → opts.pattern = [] →
      regexFor compile opts = .ok none ∧
      ∀ k : Key, matchStep opts none k = .matched) := by
  constructor
  · intro s e hdb hm hp hc
    have hre : regexFor compile opts = .error ("invalid regex: " ++ e) := by
      unfold regexFor
      rw [if_pos ⟨hm, hp⟩, hc]
    simp only [ListKeys, hdb, hre]
  · intro hm hp
    refine ⟨?_, ?_⟩
    · unfold regexFor
      rw [if_neg (fun hand => hand.2 hp)]
    · intro k
      have hnp : ¬ opts.mode = "prefix" := by rw [hm]; decide
      have hns : ¬ opts.mode = "substring" := by rw [hm]; decide
      unfold matchStep
      rw [if_neg hnp, if_neg hns, if_pos hm]

/-- Witness for C7: a failing compiler aborts a concrete regex query, and
the empty regex pattern matches a concrete key. -/
theorem C7_regex_witness :
    ListKeys compileBad { db := some [] }
      { pattern := [97]
        mode := "regex"
        sortDesc := false
        limit := 10
        offset := 0
        startKey := []
        previewChars := 10 } = .error ("invalid regex: " ++ "x") ∧
    matchStep
      { pattern := []
        mode := "regex"
        sortDesc := false
        limit := 10
        offset := 0
        startKey := []
        previewChars := 10 } none [5] = .matched :=
  ⟨(C7_regex compileBad { db := some [] }
      { pattern := [97]
        mode := "regex"
        sortDesc := false
        limit := 10
        offset := 0
        startKey := []
        previewChars := 10 }).1 [] "x" rfl rfl (by decide) rfl,
   ((C7_regex compileBad { db := some [] }
      { pattern := []
        mode := "regex"
        sortDesc := false
        limit := 10
        offset := 0
        startKey := []
        previewChars := 10 }).2 rfl rfl).2 [5]⟩

/-- The iterator range visited after a seek is a sub-sequence of the store
when scanning forward. -/
theorem seekEntries_sublist_of_asc (store : Store) (t : Key) :
    (seekEntries store false t).Sublist store := by
  unfold seekEntries
  by_cases ht : t = []
  · rw [if_pos ht, if_neg Bool.false_ne_true]
  · rw [if_neg ht, if_neg Bool.false_ne_true]
    exact List.filter_sublist store

/-- C8: with a positive limit, the returned page is exactly the matched
entries of the scanned range after dropping the first `offset` of them
when no start key is given (and none otherwise), capped at `limit` rows —
so unmatched keys count toward neither offset nor limit, a supplied start
key suppresses offset skipping, and at most `limit` rows are returned. -/
theorem C8_window (compile : Key → Except String (Key → Bool)) (store : Store)
    (opts : ListKeysOptions) (re : Option (Key → Bool))
    (hsort : (store.map Prod.fst).Pairwise (fun a b => keyLt a b = true))
    (hre : regexFor compile opts = .ok re)
    (hpos : 0 < opts.limit) :
    ∃ hasMore : Bool,
      ListKeys compile { db := some store } opts =
        .ok (((((seekEntries store opts.sortDesc (seekTarget opts)).filter
            (matchedP opts re)).drop
          (if opts.startKey = [] then opts.offset.toNat else 0)).take
          opts.limit.toNat).map (fun kv => mkKeyItem opts kv.1 kv.2), hasMore) ∧
      (((((seekEntries store opts.sortDesc (seekTarget opts)).filter
            (matchedP opts re)).drop
          (if opts.startKey = [] then opts.offset.toNat else 0)).take
          opts.limit.toNat).map (fun kv => mkKeyItem opts kv.1 kv.2)).length ≤
        opts.limit.toNat := by
  have hEsorted : opts.mode = "prefix" → opts.sortDesc = false →
      ((seekEntries store opts.sortDesc (seekTarget opts)).map Prod.fst).Pairwise
        (fun a b => keyLt a b = true) := by
    intro _ h2
    have hsub : (seekEntries store opts.sortDesc (seekTarget opts)).Sublist store := by
      rw [h2]
      exact seekEntries_sublist_of_asc store (seekTarget opts)
    exact List.Pairwise.sublist (hsub.map Prod.fst) hsort
  have hcount : (0 : Nat) < effLimit opts := by
    unfold effLimit
    omega
  have hchar := listLoop_characterization opts re
    (seekEntries store opts.sortDesc (seekTarget opts))
    { items := [], count := 0, skipped := 0, hasMore := false } hEsorted hcount
  have heff : effLimit opts = opts.limit.toNat := by
    unfold effLimit
    omega
  have hofft : offTarget opts = if opts.startKey = [] then opts.offset.toNat else 0 := rfl
  refine ⟨(listLoop opts re (seekEntries store opts.sortDesc (seekTarget opts))
      { items := [], count := 0, skipped := 0, hasMore := false }).hasMore, ?_, ?_⟩
  · simp only [ListKeys, hre]
    rw [Except.ok.injEq, Prod.mk.injEq]
    refine ⟨?_, rfl⟩
    rw [hchar, heff, hofft]
    simp
  · rw [List.length_map, List.length_take]
    exact min_le_left _ _

/-- Witness for C8 at a concrete substring query with offset 1 and
limit 1 over three keys. -/
theorem C8_window_witness :
    ∃ hasMore : Bool,
      ListKeys compileTrue { db := some [([97], [120]), ([98], [121]), ([99], [122])] }
        { pattern := []
          mode := "substring"
          sortDesc := false
          limit := 1
          offset := 1
          startKey := []
          previewChars := 10 } =
        .ok (((((seekEntries [([97], [120]), ([98], [121]), ([99], [122])] false
            (seekTarget
              { pattern := []
                mode := "substring"
                sortDesc := false
                limit := 1
                offset := 1
                startKey := []
                previewChars := 10 })).filter
            (matchedP
              { pattern := []
                mode := "substring"
                sortDesc := false
                limit := 1
                offset := 1
                startKey := []
                previewChars := 10 } none)).drop 1).take 1).map
          (fun kv => mkKeyItem
            { pattern := []
              mode := "substring"
              sortDesc := false
              limit := 1
              offset := 1
              startKey := []
              previewChars := 10 } kv.1 kv.2), hasMore) ∧
      (((((seekEntries [([97], [120]), ([98], [121]), ([99], [122])] false
            (seekTarget
              { pattern := []
                mode := "substring"
                sortDesc := false
                limit := 1
                offset := 1
                startKey := []
                previewChars := 10 })).filter
            (matchedP
              { pattern := []
                mode := "substring"
                sortDesc := false
                limit := 1
                offset := 1
                startKey := []
                previewChars := 10 } none)).drop 1).take 1).map
          (fun kv => mkKeyItem
            { pattern := []
              mode := "substring"
              sortDesc := false
              limit := 1
              offset := 1
              startKey := []
              previewChars := 10 } kv.1 kv.2)).length ≤ 1 :=
  C8_window compileTrue [([97], [120]), ([98], [121]), ([99], [122])]
    { pattern := []
      mode := "substring"
      sortDesc := false
      limit := 1
      offset := 1
      startKey := []
      previewChars := 10 } none (by decide) (by rfl) (by decide)

/-- C10: with a non-positive limit, as soon as one key matches after the
offset skipping the query returns exactly one row — the limit check runs
only after a row has been appended. -/
theorem C10_nonpositive_limit (compile : Key → Except String (Key → Bool))
    (store : Store) (opts : ListKeysOptions) (re : Option (Key → Bool))
    (hsort : (store.map Prod.fst).Pairwise (fun a b => keyLt a b = true))
    (hre : regexFor compile opts = .ok re)
    (hlim : opts.limit ≤ 0)
    (hne : (((seekEntries store opts.sortDesc (seekTarget opts)).filter
        (matchedP opts re)).drop
      (if opts.startKey = [] then opts.offset.toNat else 0)) ≠ []) :
    ∃ (items : List KeyItem) (hasMore : Bool),
      ListKeys compile { db := some store } opts = .ok (items, hasMore) ∧
      items.length = 1 := by
  have hEsorted : opts.mode = "prefix" → opts.sortDesc = false →
      ((seekEntries store opts.sortDesc (seekTarget opts)).map Prod.fst).Pairwise
        (fun a b => keyLt a b = true) := by
    intro _ h2
    have hsub : (seekEntries store opts.sortDesc (seekTarget opts)).Sublist store := by
      rw [h2]
      exact seekEntries_sublist_of_asc store (seekTarget opts)
    exact List.Pairwise.sublist (hsub.map Prod.fst) hsort
  have hcount : (0 : Nat) < effLimit opts := by
    unfold effLimit
    omega
  have hchar := listLoop_characterization opts re
    (seekEntries store opts.sortDesc (seekTarget opts))
    { items := [], count := 0, skipped := 0, hasMore := false } hEsorted hcount
  have heff : effLimit opts = 1 := by
    unfold effLimit
    omega
  have hofft : offTarget opts = if opts.startKey = [] then opts.offset.toNat else 0 := rfl
  refine ⟨(listLoop opts re (seekEntries store opts.sortDesc (seekTarget opts))
      { items := [], count := 0, skipped := 0, hasMore := false }).items,
    (listLoop opts re (seekEntries store opts.sortDesc (seekTarget opts))
      { items := [], count := 0, skipped := 0, hasMore := false }).hasMore, ?_, ?_⟩
  · simp only [ListKeys, hre]
  · rw [hchar, heff, hofft]
    have hpos : 0 < (((seekEntries store opts.sortDesc (seekTarget opts)).filter
        (matchedP opts re)).drop
      (if opts.startKey = [] then opts.offset.toNat else 0)).length :=
      List.length_pos.mpr hne
    simp only [Nat.sub_zero, List.nil_append, List.length_map, List.length_take]
    omega

/-- Witness for C10: limit 0 over two matching keys returns one row. -/
theorem C10_nonpositive_limit_witness :
    ∃ (items : List KeyItem) (hasMore : Bool),
      ListKeys compileTrue { db := some [([97], [120]), ([98], [121])] }
        { pattern := []
          mode := "substring"
          sortDesc := false
          limit := 0
          offset := 0
          startKey := []
          previewChars := 10 } = .ok (items, hasMore) ∧
      items.length = 1 :=
  C10_nonpositive_limit compileTrue [([97], [120]), ([98], [121])]
    { pattern := []
      mode := "substring"
      sortDesc := false
      limit := 0
      offset := 0
      startKey := []
      previewChars := 10 } none (by decide) (by rfl) (by decide) (by decide)

end BadgerExplorer
